import Mathlib

/-!
Shallow embedding of the tg-work-queue repository (src/bot.py, src/database.py).

The embedding models:
  * the Reference Extractor of `bot.py` (`GITLAB_MR_PATTERN`, `GITHUB_PR_PATTERN`,
    `extract_task_id`) via a small backtracking regular-expression engine whose
    preference order (alternation left-first, greedy star body-first, lazy star
    exit-first, anchored at the start of the input as `re.match` is) mirrors the
    semantics of Python's `re` module;
  * the persistent store of `database.py` (`Database`) as an explicit state value
    holding the rows of the four SQLite tables, with each method of the class
    translated to a state-passing function.

Wall-clock timestamp columns (`created_at`, `updated_at`, filled by SQLite's
CURRENT_TIMESTAMP) are environment input and are not part of the model; no
verified property concerns them.
-/

namespace WorkQueue

/-! ## Regular-expression engine (Python `re` backtracking semantics)

`bot.py` lines 41-45 define `GITLAB_MR_PATTERN` (scheme, any host, any number of
path segments, the captured repo segment, a literal "-" segment, a literal
"merge_requests" segment, captured digits) and `GITHUB_PR_PATTERN` (scheme,
exact host "github.com", owner segment, captured repo segment, literal "pull"
segment, captured digits).  Both are compiled without `re.IGNORECASE` and used
with `.match` (anchored at the start of the string, free at the end).
-/

/-- Syntax of the regular-expression fragment used by the two URL patterns:
literal strings, single-character predicates (`[^/]`, `\d`, `.`), concatenation,
alternation (left preferred), greedy/lazy Kleene star, and numbered capture
groups. `a?` is `alt a ε`; `a+` is `a` then greedy star; `a+?` is `a` then lazy
star. -/
inductive RE where
  | lit (cs : List Char)
  | pred (p : Char → Bool)
  | seq (a b : RE)
  | alt (a b : RE)
  | star (lzy : Bool) (a : RE)
  | group (n : Nat) (a : RE)

/-- Match a literal character sequence against the front of the input,
returning the rest on success. -/
def dropLit : List Char → List Char → Option (List Char)
  | [], s => some s
  | _ :: _, [] => none
  | c :: cs, ch :: s => if c = ch then dropLit cs s else none

/-- Backtracking matcher in continuation-passing style.  `g` is the stack of
captures made so far (most recent first, as Python keeps the last repetition of
a group); `k` is the continuation receiving the remaining input and captures.
The preference order is exactly Python's: `alt` tries its left branch first, a
greedy `star` tries its body before exiting, a lazy `star` tries exiting before
its body.  `fuel` bounds the recursion depth; every use in this file supplies
enough fuel that the bound is never the reason a branch fails. -/
def mrun : Nat → RE → List Char → List (Nat × String) →
    (List Char → List (Nat × String) → Option (List (Nat × String))) →
    Option (List (Nat × String))
  | 0, _, _, _, _ => none
  | _ + 1, .lit cs, s, g, k =>
      match dropLit cs s with
      | some s' => k s' g
      | none => none
  | _ + 1, .pred p, s, g, k =>
      match s with
      | [] => none
      | ch :: s' => if p ch then k s' g else none
  | fuel + 1, .seq a b, s, g, k =>
      mrun fuel a s g (fun s' g' => mrun fuel b s' g' k)
  | fuel + 1, .alt a b, s, g, k =>
      match mrun fuel a s g k with
      | some r => some r
      | none => mrun fuel b s g k
  | fuel + 1, .star lzy a, s, g, k =>
      if lzy then
        match k s g with
        | some r => some r
        | none => mrun fuel a s g (fun s' g' => mrun fuel (RE.star lzy a) s' g' k)
      else
        match mrun fuel a s g (fun s' g' => mrun fuel (RE.star lzy a) s' g' k) with
        | some r => some r
        | none => k s g
  | fuel + 1, .group n a, s, g, k =>
      mrun fuel a s g (fun s' g' =>
        k s' ((n, String.mk (s.take (s.length - s'.length))) :: g'))

/-- Right-nested concatenation of a list of regex pieces. -/
def seqAll : List RE → RE
  | [] => .lit []
  | [r] => r
  | r :: rest => .seq r (seqAll rest)

/-- `a+` (greedy). -/
def rePlus (a : RE) : RE := .seq a (.star false a)

/-- `a+?` (lazy). -/
def rePlusLazy (a : RE) : RE := .seq a (.star true a)

/-- `[^/]` -/
def notSlash : RE := .pred (fun c => !(c = '/'))

/-- `.` (any character except a newline). -/
def reDot : RE := .pred (fun c => !(c = '\n'))

/-- `\d` -/
def reDigit : RE := .pred Char.isDigit

/-- `https?://` — the scheme part shared by both patterns.  The literals are
lower case: neither pattern is compiled with `re.IGNORECASE`. -/
def schemePart : RE :=
  seqAll [.lit "http".data, .alt (.lit "s".data) (.lit []), .lit "://".data]

/-- The GitLab MR pattern of bot.py line 43: scheme, `[^/]+` host, a slash, a
greedy star of (lazy `.+?` then a slash), group 1 `[^/]+`, the literal
"(slash)-(slash)merge_requests(slash)", group 2 `\d+`. -/
def GITLAB_MR_PATTERN : RE :=
  seqAll [schemePart, rePlus notSlash, .lit "/".data,
    .star false (.seq (rePlusLazy reDot) (.lit "/".data)),
    .group 1 (rePlus notSlash),
    .lit "/-/merge_requests/".data,
    .group 2 (rePlus reDigit)]

/-- The GitHub PR pattern of bot.py line 45: scheme, literal "github.com"
host, `[^/]+` owner, a slash, group 1 `[^/]+`, the literal
"(slash)pull(slash)", group 2 `\d+`. -/
def GITHUB_PR_PATTERN : RE :=
  seqAll [schemePart, .lit "github.com/".data, rePlus notSlash, .lit "/".data,
    .group 1 (rePlus notSlash),
    .lit "/pull/".data,
    .group 2 (rePlus reDigit)]

/-- `pattern.match(url)`: anchored at position 0, may end anywhere; returns the
captures of the first match in backtracking-preference order, or `none`. -/
def rmatch (r : RE) (input : String) : Option (List (Nat × String)) :=
  let cs := input.data
  mrun (16 * cs.length + 200) r cs [] (fun _ g => some g)

/-- `match.group(n)`: the most recent capture of group `n`. -/
def matchGroup (g : List (Nat × String)) (n : Nat) : Option String :=
  (g.find? (fun p => p.1 == n)).map (fun p => p.2)

/-- `extract_task_id` (bot.py lines 108-127): try the GitLab pattern, then the
GitHub pattern; build `"{repo}/merge_requests/{n}"` resp. `"{repo}/pull/{n}"`
from the two captures, or return `None` if neither pattern matches. -/
def extract_task_id (url : String) : Option String :=
  match rmatch GITLAB_MR_PATTERN url with
  | some g =>
      match matchGroup g 1, matchGroup g 2 with
      | some repo, some mr => some (repo ++ "/merge_requests/" ++ mr)
      | _, _ => none
  | none =>
      match rmatch GITHUB_PR_PATTERN url with
      | some g =>
          match matchGroup g 1, matchGroup g 2 with
          | some repo, some pr => some (repo ++ "/pull/" ++ pr)
          | _, _ => none
      | none => none

/-! ## The persistent store (`database.py`, class `Database`)

The four SQLite tables are modelled as lists of rows held in one state value:

  * `tasks` — rows of the `tasks` table.  `id` is the `INTEGER PRIMARY KEY
    AUTOINCREMENT` column; `next_task_id` carries the autoincrement counter
    (SQLite's AUTOINCREMENT never reuses a rowid).  Rows appear in insertion
    order, as an `ORDER BY`-less SELECT returns them.
  * `task_assignees` — rows `(task_id, assignee)` of the junction table; its own
    surrogate `id` column is never read, so it is not modelled.  Note that
    `database.py` never issues `PRAGMA foreign_keys = ON`, so the
    `ON DELETE CASCADE` clause is inert: deleting a task leaves its junction
    rows orphaned (they are invisible afterwards because task ids are never
    reused).
  * `seq_counters` — rows `(chat_id, next_num)`.
  * `reminders` — rows keyed by `chat_id`.

Each method runs inside a connection context manager that commits on success
and rolls back on an uncaught exception; the only operation that can raise
mid-transaction is the task INSERT of `add_task` (UNIQUE violation), which is
modelled as a guard returning the pre-call state, exactly reproducing the
rollback. -/

/-- A row of the `tasks` table. -/
structure TaskRow where
  id : Nat
  chat_id : Int
  seq_num : Nat
  task_id : String
  url : String
  assigned_to : String
  created_by : String
deriving DecidableEq, Repr

/-- The `Task` dataclass of database.py: what the read operations return.
`assignees` is read from the junction table (sorted), not from the legacy
`assigned_to` column. -/
structure Task where
  id : Nat
  chat_id : Int
  seq_num : Nat
  task_id : String
  url : String
  assignees : List String
  created_by : String
deriving DecidableEq, Repr

/-- A row of the `reminders` table (timestamp columns omitted, see the module
comment). -/
structure ReminderRow where
  chat_id : Int
  cron_expression : String
  enabled : Bool
deriving DecidableEq, Repr

/-- The whole database state. -/
structure DBState where
  tasks : List TaskRow
  task_assignees : List (Nat × String)
  seq_counters : List (Int × Nat)
  reminders : List ReminderRow
  next_task_id : Nat
deriving DecidableEq, Repr

/-- A freshly created database (`_init_db` on a new file): all tables empty,
rowid allocation starting at 1. -/
def initState : DBState :=
  { tasks := [], task_assignees := [], seq_counters := [], reminders := [],
    next_task_id := 1 }

/-- `Database._get_next_seq_num` (database.py lines 90-109): SELECT the
counter row for the chat; if absent, INSERT `(chat_id, 2)` and return 1,
otherwise return the stored value and UPDATE it to value + 1. -/
def get_next_seq_num (s : DBState) (chat : Int) : Nat × DBState :=
  match s.seq_counters.find? (fun p => p.1 == chat) with
  | none =>
      (1, { s with seq_counters := s.seq_counters ++ [(chat, 2)] })
  | some p =>
      (p.2, { s with seq_counters :=
        s.seq_counters.map (fun q => if q.1 == chat then (q.1, p.2 + 1) else q) })

/-- Lexicographic less-or-equal on character lists: the order SQLite's default
BINARY collation (a bytewise memcmp of the UTF-8 encodings, shorter prefix
first) induces on strings, since UTF-8 byte order coincides with code-point
order. -/
def charListLe : List Char → List Char → Bool
  | [], _ => true
  | _ :: _, [] => false
  | a :: as, b :: bs => if a < b then true else if a = b then charListLe as bs else false

/-- BINARY-collation less-or-equal on strings. -/
def strLe (a b : String) : Bool := charListLe a.data b.data

/-- `Database._get_task_assignees` (database.py lines 139-145): SELECT assignee
FROM task_assignees WHERE task_id = ? ORDER BY assignee, i.e. sorted ascending
in BINARY-collation order. -/
def get_task_assignees (J : List (Nat × String)) (tid : Nat) : List String :=
  List.insertionSort (fun a b => strLe a b = true)
    ((J.filter (fun p => p.1 == tid)).map (fun p => p.2))

/-- `Database._set_task_assignees` (database.py lines 147-161): DELETE all
junction rows of the task, then INSERT the given assignees in order, skipping
empty strings (`if assignee:`) and catching the UNIQUE(task_id, assignee)
IntegrityError on duplicates. -/
def set_task_assignees (J : List (Nat × String)) (tid : Nat) (assignees : List String) :
    List (Nat × String) :=
  let J0 := J.filter (fun p => !(p.1 == tid))
  assignees.foldl (fun acc a =>
    if a = "" then acc
    else if acc.any (fun p => p.1 == tid && p.2 == a) then acc
    else acc ++ [(tid, a)]) J0

/-- `Database.add_task` (database.py lines 163-186): allocate the next sequence
number, INSERT the task row (`assigned_to` kept for backward compatibility as
the first assignee or "unassigned"), store the assignees, commit and return the
sequence number.  A UNIQUE violation on `(chat_id, task_id)` or
`(chat_id, seq_num)` raises IntegrityError before the commit; the context
manager rolls the whole transaction back (including the counter change) and
the method returns `None`. -/
def add_task (s : DBState) (chat : Int) (tid url : String) (assignees : List String)
    (created_by : String) : Option Nat × DBState :=
  let seqs := get_next_seq_num s chat
  if s.tasks.any (fun t => t.chat_id == chat && (t.task_id == tid || t.seq_num == seqs.1)) then
    (none, s)
  else
    let assigned_to := assignees.headD "unassigned"
    let row : TaskRow :=
      { id := seqs.2.next_task_id, chat_id := chat, seq_num := seqs.1, task_id := tid,
        url := url, assigned_to := assigned_to, created_by := created_by }
    let s2 := { seqs.2 with tasks := seqs.2.tasks ++ [row], next_task_id := seqs.2.next_task_id + 1 }
    (some seqs.1, { s2 with task_assignees := set_task_assignees s2.task_assignees row.id assignees })

/-- `Database._row_to_task` (database.py lines 215-226). -/
def row_to_task (s : DBState) (r : TaskRow) : Task :=
  { id := r.id, chat_id := r.chat_id, seq_num := r.seq_num, task_id := r.task_id,
    url := r.url, assignees := get_task_assignees s.task_assignees r.id,
    created_by := r.created_by }

/-- `Database.get_tasks` (database.py lines 188-213): all tasks of the chat,
ORDER BY seq_num ASC, each row joined with its junction-table assignees. -/
def get_tasks (s : DBState) (chat : Int) : List Task :=
  (List.insertionSort (fun a b => a.seq_num ≤ b.seq_num)
      (s.tasks.filter (fun t => t.chat_id == chat))).map (row_to_task s)

/-- `Database.remove_task_by_id` (database.py lines 228-250): SELECT the row by
`(chat_id, task_id)`; on a miss return `None`, otherwise build the `Task`
value, DELETE the matching rows and return the pre-deletion record.  (Foreign
keys are off, so the junction rows stay behind.) -/
def remove_task_by_id (s : DBState) (chat : Int) (tid : String) : Option Task × DBState :=
  match s.tasks.find? (fun t => t.chat_id == chat && t.task_id == tid) with
  | none => (none, s)
  | some r =>
      (some (row_to_task s r),
       { s with tasks := s.tasks.filter (fun t => !(t.chat_id == chat && t.task_id == tid)) })

/-- `Database.remove_task_by_seq` (database.py lines 252-274): same as
`remove_task_by_id` but keyed by `(chat_id, seq_num)`. -/
def remove_task_by_seq (s : DBState) (chat : Int) (seq : Nat) : Option Task × DBState :=
  match s.tasks.find? (fun t => t.chat_id == chat && t.seq_num == seq) with
  | none => (none, s)
  | some r =>
      (some (row_to_task s r),
       { s with tasks := s.tasks.filter (fun t => !(t.chat_id == chat && t.seq_num == seq)) })

/-- `Database.update_task_assignees_by_seq` (database.py lines 276-315): SELECT
the row by `(chat_id, seq_num)` (miss returns `None`); replace its junction
rows, UPDATE the legacy `assigned_to` column of the matching rows, commit,
re-SELECT and return the updated record.  (The re-SELECT cannot miss: the
UPDATE does not change the key columns.) -/
def update_task_assignees_by_seq (s : DBState) (chat : Int) (seq : Nat)
    (assignees : List String) : Option Task × DBState :=
  match s.tasks.find? (fun t => t.chat_id == chat && t.seq_num == seq) with
  | none => (none, s)
  | some r =>
      let J := set_task_assignees s.task_assignees r.id assignees
      let assigned_to := assignees.headD "unassigned"
      let tasks := s.tasks.map (fun t =>
        if t.chat_id == chat && t.seq_num == seq then { t with assigned_to := assigned_to } else t)
      let s' := { s with task_assignees := J, tasks := tasks }
      ((tasks.find? (fun t => t.chat_id == chat && t.seq_num == seq)).map (row_to_task s'), s')

/-- `Database.update_task_assignees_by_id` (database.py lines 317-356): same as
`update_task_assignees_by_seq` but keyed by `(chat_id, task_id)`. -/
def update_task_assignees_by_id (s : DBState) (chat : Int) (tid : String)
    (assignees : List String) : Option Task × DBState :=
  match s.tasks.find? (fun t => t.chat_id == chat && t.task_id == tid) with
  | none => (none, s)
  | some r =>
      let J := set_task_assignees s.task_assignees r.id assignees
      let assigned_to := assignees.headD "unassigned"
      let tasks := s.tasks.map (fun t =>
        if t.chat_id == chat && t.task_id == tid then { t with assigned_to := assigned_to } else t)
      let s' := { s with task_assignees := J, tasks := tasks }
      ((tasks.find? (fun t => t.chat_id == chat && t.task_id == tid)).map (row_to_task s'), s')

/-- `Database.set_reminder` (database.py lines 358-372): INSERT OR on chat_id
conflict UPDATE cron_expression and enabled.  The `enabled` parameter defaults
to `True`, and the only caller (bot.py line 389) passes `enabled=True`. -/
def set_reminder (s : DBState) (chat : Int) (cron : String) (enabled : Bool := true) : DBState :=
  if s.reminders.any (fun r => r.chat_id == chat) then
    { s with reminders := s.reminders.map (fun r =>
        if r.chat_id == chat then { r with cron_expression := cron, enabled := enabled } else r) }
  else
    { s with reminders :=
        s.reminders ++ [{ chat_id := chat, cron_expression := cron, enabled := enabled }] }

/-- `Database.get_reminder` (database.py lines 374-396). -/
def get_reminder (s : DBState) (chat : Int) : Option ReminderRow :=
  s.reminders.find? (fun r => r.chat_id == chat)

/-- `Database.get_all_active_reminders` (database.py lines 398-417): all rows
WHERE enabled = 1. -/
def get_all_active_reminders (s : DBState) : List ReminderRow :=
  s.reminders.filter (fun r => r.enabled)

/-- `Database.disable_reminder` (database.py lines 419-427): UPDATE enabled = 0
WHERE chat_id = ?; returns whether any row was updated. -/
def disable_reminder (s : DBState) (chat : Int) : Bool × DBState :=
  (s.reminders.any (fun r => r.chat_id == chat),
   { s with reminders := s.reminders.map (fun r =>
       if r.chat_id == chat then { r with enabled := false } else r) })

/-- `Database.delete_reminder` (database.py lines 429-437). -/
def delete_reminder (s : DBState) (chat : Int) : Bool × DBState :=
  (s.reminders.any (fun r => r.chat_id == chat),
   { s with reminders := s.reminders.filter (fun r => !(r.chat_id == chat)) })

/-- The backfill loop of `_migrate_assignees`: for every task whose legacy
`assigned_to` is neither "unassigned" nor "", INSERT `(id, assigned_to)` into
the junction table, skipping rows that would violate UNIQUE(task_id, assignee). -/
def backfill_legacy (tasks : List TaskRow) (acc : List (Nat × String)) : List (Nat × String) :=
  (tasks.filter (fun t => !(t.assigned_to == "unassigned") && !(t.assigned_to == ""))).foldl
    (fun acc t =>
      if acc.any (fun p => p.1 == t.id && p.2 == t.assigned_to) then acc
      else acc ++ [(t.id, t.assigned_to)]) acc

/-- `Database._migrate_assignees` (database.py lines 111-137): if the junction
table is non-empty, return (already migrated); otherwise run the backfill loop
over the tasks with a meaningful legacy `assigned_to` value. -/
def migrate_assignees (s : DBState) : DBState :=
  if s.task_assignees.length > 0 then s
  else { s with task_assignees := backfill_legacy s.tasks s.task_assignees }

/-! ## Operation sequences over the registry (for the allocator invariant) -/

/-- One user-level operation on the Task Registry of a chat. -/
inductive Op where
  | add (chat : Int) (task_id url : String) (assignees : List String) (created_by : String)
  | removeBySeq (chat : Int) (seq : Nat)
  | removeById (chat : Int) (task_id : String)

/-- Apply one operation; also report the `(chat, seq_num)` event of a
successful add (the value `add_task` returned to the caller). -/
def applyOp (s : DBState) : Op → DBState × List (Int × Nat)
  | .add c tid url as cb =>
      let r := add_task s c tid url as cb
      (r.2, match r.1 with | some n => [(c, n)] | none => [])
  | .removeBySeq c q => ((remove_task_by_seq s c q).2, [])
  | .removeById c tid => ((remove_task_by_id s c tid).2, [])

/-- Run a sequence of operations, collecting all issued `(chat, seq_num)`
events in invocation order. -/
def runOps : DBState → List Op → DBState × List (Int × Nat)
  | s, [] => (s, [])
  | s, op :: ops =>
      let r := applyOp s op
      let rest := runOps r.1 ops
      (rest.1, r.2 ++ rest.2)

/-- The `seq_num` values returned by the successful adds of chat `c`, in
invocation order. -/
def issuedSeqs (s : DBState) (ops : List Op) (c : Int) : List Nat :=
  (((runOps s ops).2).filter (fun p => p.1 == c)).map (fun p => p.2)

/-- The per-chat allocator's next value: the stored counter, or 1 when the
counter row does not exist yet (lazy initialization). -/
def nextFor (s : DBState) (c : Int) : Nat :=
  match s.seq_counters.find? (fun p => p.1 == c) with
  | none => 1
  | some p => p.2

/-! ## Auxiliary definitions for the verification -/

/-- First-occurrence deduplication of the nonempty entries of a list, with an
accumulator of already-seen values. -/
def dedupNonempty (seen : List String) : List String → List String
  | [] => seen
  | a :: rest =>
      if a = "" then dedupNonempty seen rest
      else if a ∈ seen then dedupNonempty seen rest
      else dedupNonempty (seen ++ [a]) rest

/-- Well-formedness of the `tasks` table: the UNIQUE constraints of the schema
(`id` PRIMARY KEY, UNIQUE(chat_id, task_id), UNIQUE(chat_id, seq_num)) hold.
Every state SQLite lets `database.py` reach satisfies this. -/
@[reducible] def WfTasks (l : List TaskRow) : Prop :=
  l.Pairwise (fun a b => a.id ≠ b.id ∧
    (a.chat_id = b.chat_id → a.task_id ≠ b.task_id ∧ a.seq_num ≠ b.seq_num))

/-- A two-task state used to witness C3 concretely. -/
def removeWitnessState : DBState :=
  { tasks := [
      { id := 1, chat_id := 1, seq_num := 1, task_id := "A", url := "uA",
        assigned_to := "unassigned", created_by := "@me" },
      { id := 2, chat_id := 1, seq_num := 2, task_id := "B", url := "uB",
        assigned_to := "@x", created_by := "@me" }],
    task_assignees := [(2, "@x")], seq_counters := [(1, 3)], reminders := [],
    next_task_id := 3 }

/-- The stored row of task "A" in `removeWitnessState`. -/
def removeWitnessRowA : TaskRow :=
  { id := 1, chat_id := 1, seq_num := 1, task_id := "A", url := "uA",
    assigned_to := "unassigned", created_by := "@me" }

/-- The stored row of task "B" in `removeWitnessState`. -/
def removeWitnessRowB : TaskRow :=
  { id := 2, chat_id := 1, seq_num := 2, task_id := "B", url := "uB",
    assigned_to := "@x", created_by := "@me" }

/-- A one-task state used to witness C4 concretely. -/
def updateWitnessState : DBState :=
  { tasks := [
      { id := 1, chat_id := 1, seq_num := 1, task_id := "T", url := "u",
        assigned_to := "@x", created_by := "@me" }],
    task_assignees := [(1, "@x")], seq_counters := [(1, 2)], reminders := [],
    next_task_id := 2 }

/-- A well-formed one-task state used to witness C7 concretely. -/
def equivWitnessState : DBState :=
  { tasks := [
      { id := 1, chat_id := 1, seq_num := 1, task_id := "T", url := "u",
        assigned_to := "@x", created_by := "@me" }],
    task_assignees := [(1, "@x")], seq_counters := [(1, 2)], reminders := [],
    next_task_id := 2 }

/-- The single stored row of `equivWitnessState`. -/
def equivWitnessRow : TaskRow :=
  { id := 1, chat_id := 1, seq_num := 1, task_id := "T", url := "u",
    assigned_to := "@x", created_by := "@me" }

/-- An unmigrated two-task state (empty junction table) witnessing C9's
backfill branch. -/
def migrateWitnessState : DBState :=
  { tasks := [
      { id := 1, chat_id := 5, seq_num := 1, task_id := "T", url := "u",
        assigned_to := "@x", created_by := "@me" },
      { id := 2, chat_id := 5, seq_num := 2, task_id := "U", url := "u2",
        assigned_to := "unassigned", created_by := "@me" }],
    task_assignees := [], seq_counters := [(5, 3)], reminders := [], next_task_id := 3 }

/-- An already-migrated state (non-empty junction table) witnessing C9's
no-op branch. -/
def migratedWitnessState : DBState :=
  { tasks := [
      { id := 1, chat_id := 5, seq_num := 1, task_id := "T", url := "u",
        assigned_to := "@x", created_by := "@me" }],
    task_assignees := [(1, "@x")], seq_counters := [(5, 2)], reminders := [], next_task_id := 2 }

/-! ## Theorems -/

/-- C5: The Reference Extractor maps the example GitLab MR URL to
"repo/merge_requests/123", the example GitHub PR URL to "repo/pull/45", and
returns no identifier (`none`) for "https://example.com/not-a-match".  (It is a
pure, deterministic Lean function of the URL string by construction.) -/
theorem extractor_maps_examples :
    extract_task_id "http://gitlab.example.com/group/repo/-/merge_requests/123"
      = some "repo/merge_requests/123" ∧
    extract_task_id "https://github.com/owner/repo/pull/45" = some "repo/pull/45" ∧
    extract_task_id "https://example.com/not-a-match" = none := by
  refine ⟨by decide, by decide, by decide⟩

/-- C6 counterexample: changing the case of the scheme does NOT yield the same
extraction result — the URL patterns are compiled without `re.IGNORECASE`, so
the upper-case scheme form of the example GitLab URL extracts differently
(namely to `none`) from the lower-case form. -/
theorem scheme_uppercase_differs :
    ¬ (extract_task_id "HTTP://gitlab.example.com/group/repo/-/merge_requests/123"
        = extract_task_id "http://gitlab.example.com/group/repo/-/merge_requests/123") := by
  decide

/-- C6 amended: the Reference Extractor's matching is case-SENSITIVE on the URL
scheme: upper-cased-scheme forms of the example URLs yield no identifier, while
the lowercase-scheme forms yield the identifiers. -/
theorem scheme_matching_case_sensitive :
    extract_task_id "HTTP://gitlab.example.com/group/repo/-/merge_requests/123" = none ∧
    extract_task_id "HTTPS://github.com/owner/repo/pull/45" = none ∧
    extract_task_id "Http://gitlab.example.com/group/repo/-/merge_requests/123" = none ∧
    extract_task_id "Https://github.com/owner/repo/pull/45" = none ∧
    extract_task_id "http://gitlab.example.com/group/repo/-/merge_requests/123"
      = some "repo/merge_requests/123" ∧
    extract_task_id "https://github.com/owner/repo/pull/45" = some "repo/pull/45" := by
  refine ⟨by decide, by decide, by decide, by decide, by decide, by decide⟩

/-- C2: calling `add_task` while a live task with the same `(chat_id, task_id)`
exists returns the "already exists" sentinel `None` and leaves the entire
database state unchanged (the IntegrityError rolls back the transaction,
including the counter allocation): the next successful add in the chat
therefore receives exactly the `seq_num` the failed call would have received. -/
theorem add_task_duplicate_returns_none_and_leaves_state (s : DBState) (chat : Int)
    (tid url : String) (assignees : List String) (created_by : String)
    (h : ∃ t ∈ s.tasks, t.chat_id = chat ∧ t.task_id = tid) :
    add_task s chat tid url assignees created_by = (none, s) := by
  obtain ⟨t, ht, hc, hid⟩ := h
  have hany : s.tasks.any (fun t => t.chat_id == chat &&
      (t.task_id == tid || t.seq_num == (get_next_seq_num s chat).1)) = true := by
    refine List.any_eq_true.mpr ⟨t, ht, ?_⟩
    simp [hc, hid]
  simp [add_task, hany]

/-- Witness for C2 at a concrete one-task state. -/
theorem add_task_duplicate_witness :
    add_task (add_task initState 7 "repo/pull/1" "u" [] "@me").2 7 "repo/pull/1" "u2"
        ["@a"] "@you"
      = (none, (add_task initState 7 "repo/pull/1" "u" [] "@me").2) :=
  add_task_duplicate_returns_none_and_leaves_state _ 7 "repo/pull/1" "u2" ["@a"] "@you"
    (by decide)

/-- Reading back an upserted reminder, hit case: when a row for the chat
exists, the UPDATE branch rewrites it in place and the read finds it. -/
theorem find?_reminder_update (l : List ReminderRow) (c : Int) (e : String) (en : Bool)
    (hex : l.any (fun r => r.chat_id == c) = true) :
    (l.map (fun r => if r.chat_id == c then { r with cron_expression := e, enabled := en }
        else r)).find? (fun r => r.chat_id == c)
      = some { chat_id := c, cron_expression := e, enabled := en } := by
  induction l with
  | nil => simp at hex
  | cons r l ih =>
      by_cases hr : (r.chat_id == c) = true
      · have hrc : r.chat_id = c := beq_iff_eq.mp hr
        rw [List.map_cons, if_pos hr,
          @List.find?_cons_of_pos _ (fun x : ReminderRow => x.chat_id == c) _ _ (by simpa using hr)]
        simp [hrc]
      · rw [List.map_cons, if_neg hr,
          @List.find?_cons_of_neg _ (fun x : ReminderRow => x.chat_id == c) _ _ hr]
        refine ih ?_
        rcases List.any_eq_true.mp hex with ⟨x, hx, hpx⟩
        rcases List.mem_cons.mp hx with hhead | htail
        · exact absurd (hhead ▸ hpx) hr
        · exact List.any_eq_true.mpr ⟨x, htail, hpx⟩

/-- Reading back an upserted reminder, miss case: when no row for the chat
exists, the INSERT branch appends the new row and the read finds it. -/
theorem find?_reminder_insert (l : List ReminderRow) (c : Int) (e : String) (en : Bool)
    (hex : l.any (fun r => r.chat_id == c) = false) :
    (l ++ [({ chat_id := c, cron_expression := e, enabled := en } : ReminderRow)]).find?
        (fun r => r.chat_id == c)
      = some { chat_id := c, cron_expression := e, enabled := en } := by
  have hnone : l.find? (fun r => r.chat_id == c) = none := by
    refine List.find?_eq_none.mpr ?_
    intro x hx hpx
    have htr : l.any (fun r => r.chat_id == c) = true := List.any_eq_true.mpr ⟨x, hx, hpx⟩
    rw [htr] at hex
    exact Bool.noConfusion hex
  rw [List.find?_append, hnone]
  simp [List.find?]

/-- C8: the Reminder Directory's `set` is an upsert that (as invoked, with the
default `enabled=True`) always stores `enabled = true`; `get_all_active_reminders`
returns exactly the stored configurations with `enabled = true`; and in the
scenario set(1), set(2), disable(1): disable returns `true`, only chat 2's
configuration is active, and chat 1's row still exists with its schedule
preserved and `enabled = false`. -/
theorem reminder_directory_behaviour :
    (∀ (s : DBState) (c : Int) (e : String),
        get_reminder (set_reminder s c e) c
          = some { chat_id := c, cron_expression := e, enabled := true }) ∧
    (∀ (s : DBState) (r : ReminderRow),
        r ∈ get_all_active_reminders s ↔ r ∈ s.reminders ∧ r.enabled = true) ∧
    (disable_reminder (set_reminder (set_reminder initState 1 "0 9 * * *") 2 "0 9 * * *") 1).1
      = true ∧
    get_all_active_reminders
        (disable_reminder (set_reminder (set_reminder initState 1 "0 9 * * *") 2 "0 9 * * *") 1).2
      = [{ chat_id := 2, cron_expression := "0 9 * * *", enabled := true }] ∧
    get_reminder
        (disable_reminder (set_reminder (set_reminder initState 1 "0 9 * * *") 2 "0 9 * * *") 1).2 1
      = some { chat_id := 1, cron_expression := "0 9 * * *", enabled := false } := by
  refine ⟨?_, ?_, by decide, by decide, by decide⟩
  · intro s c e
    unfold get_reminder set_reminder
    cases hex : s.reminders.any (fun r => r.chat_id == c) with
    | true =>
        rw [if_pos rfl]
        exact find?_reminder_update s.reminders c e true hex
    | false =>
        rw [if_neg (by decide : ¬(false = true))]
        exact find?_reminder_insert s.reminders c e true hex
  · intro s r
    simp [get_all_active_reminders, List.mem_filter]

/-! ### The sequence allocator never goes backwards (C1) -/

/-- `nextFor` depends only on the `seq_counters` table. -/
theorem nextFor_congr (s s' : DBState) (h : s'.seq_counters = s.seq_counters) (c : Int) :
    nextFor s' c = nextFor s c := by
  unfold nextFor
  rw [h]

/-- The UPDATE of the chat's counter row is what a later SELECT of that chat
sees. -/
theorem find?_counters_update_self (l : List (Int × Nat)) (c : Int) (v : Nat) :
    (l.map (fun q => if q.1 == c then (q.1, v) else q)).find? (fun p => p.1 == c)
      = (l.find? (fun p => p.1 == c)).map (fun q => (q.1, v)) := by
  induction l with
  | nil => rfl
  | cons q l ih =>
      by_cases hq : (q.1 == c) = true
      · rw [List.map_cons, if_pos hq,
          @List.find?_cons_of_pos _ (fun p : Int × Nat => p.1 == c) _ _ (by simpa using hq),
          @List.find?_cons_of_pos _ (fun p : Int × Nat => p.1 == c) _ _ hq]
        rfl
      · rw [List.map_cons, if_neg hq,
          @List.find?_cons_of_neg _ (fun p : Int × Nat => p.1 == c) _ _ hq,
          @List.find?_cons_of_neg _ (fun p : Int × Nat => p.1 == c) _ _ hq]
        exact ih

/-- The UPDATE of one chat's counter row is invisible to a SELECT of another
chat. -/
theorem find?_counters_update_other (l : List (Int × Nat)) (c c' : Int) (v : Nat)
    (hne : ¬(c' = c)) :
    (l.map (fun q => if q.1 == c then (q.1, v) else q)).find? (fun p => p.1 == c')
      = l.find? (fun p => p.1 == c') := by
  induction l with
  | nil => rfl
  | cons q l ih =>
      by_cases hq : (q.1 == c) = true
      · have hqc : q.1 = c := beq_iff_eq.mp hq
        have hq' : ¬((q.1 == c') = true) := by
          intro h
          exact hne (by rw [← beq_iff_eq.mp h, hqc])
        rw [List.map_cons, if_pos hq,
          @List.find?_cons_of_neg _ (fun p : Int × Nat => p.1 == c') _ _ (by simpa using hq'),
          @List.find?_cons_of_neg _ (fun p : Int × Nat => p.1 == c') _ _ hq']
        exact ih
      · rw [List.map_cons, if_neg hq]
        by_cases hq' : (q.1 == c') = true
        · rw [@List.find?_cons_of_pos _ (fun p : Int × Nat => p.1 == c') _ _ hq',
            @List.find?_cons_of_pos _ (fun p : Int × Nat => p.1 == c') _ _ hq']
        · rw [@List.find?_cons_of_neg _ (fun p : Int × Nat => p.1 == c') _ _ hq',
            @List.find?_cons_of_neg _ (fun p : Int × Nat => p.1 == c') _ _ hq']
          exact ih

/-- The allocator contract of `_get_next_seq_num`: it returns the chat's
current `nextFor` value, persists `current + 1` for that chat, leaves every
other chat's counter alone, and touches no other table. -/
theorem get_next_seq_num_spec (s : DBState) (c : Int) :
    (get_next_seq_num s c).1 = nextFor s c ∧
    nextFor (get_next_seq_num s c).2 c = nextFor s c + 1 ∧
    (∀ c', ¬(c' = c) → nextFor (get_next_seq_num s c).2 c' = nextFor s c') ∧
    (get_next_seq_num s c).2.tasks = s.tasks ∧
    (get_next_seq_num s c).2.task_assignees = s.task_assignees := by
  unfold get_next_seq_num nextFor
  cases hf : s.seq_counters.find? (fun p => p.1 == c) with
  | none =>
      refine ⟨rfl, ?_, ?_, rfl, rfl⟩
      · simp [List.find?_append, hf, List.find?]
      · intro c' hne
        have hcc' : (c == c') = false := by
          refine beq_eq_false_iff_ne.mpr ?_
          intro h
          exact hne h.symm
        simp [List.find?_append, List.find?, hcc']
  | some p =>
      refine ⟨rfl, ?_, ?_, rfl, rfl⟩
      · rw [find?_counters_update_self, hf]
        rfl
      · intro c' hne
        rw [find?_counters_update_other _ _ _ _ hne]

/-- Neither removal operation touches the counter table. -/
theorem remove_counters_eq (s : DBState) (c : Int) (q : Nat) (tid : String) :
    (remove_task_by_seq s c q).2.seq_counters = s.seq_counters ∧
    (remove_task_by_id s c tid).2.seq_counters = s.seq_counters := by
  constructor
  · unfold remove_task_by_seq
    cases s.tasks.find? (fun t => t.chat_id == c && t.seq_num == q) <;> rfl
  · unfold remove_task_by_id
    cases s.tasks.find? (fun t => t.chat_id == c && t.task_id == tid) <;> rfl

/-- What `add_task` does to the counters: a conflicting call leaves the state
untouched (rollback); a successful call returns the chat's `nextFor` value and
leaves the counters exactly as `_get_next_seq_num` persisted them. -/
theorem add_task_counter_spec (s : DBState) (c0 : Int) (tid url : String) (as : List String)
    (cb : String) :
    ((add_task s c0 tid url as cb).1 = none → (add_task s c0 tid url as cb).2 = s) ∧
    (∀ m, (add_task s c0 tid url as cb).1 = some m →
      m = nextFor s c0 ∧
      (add_task s c0 tid url as cb).2.seq_counters = (get_next_seq_num s c0).2.seq_counters) := by
  by_cases hdup : (s.tasks.any (fun t => t.chat_id == c0 &&
      (t.task_id == tid || t.seq_num == (get_next_seq_num s c0).1))) = true
  · constructor
    · intro _
      simp [add_task, hdup]
    · intro m hm
      simp [add_task, hdup] at hm
  · constructor
    · intro hm
      simp [add_task, hdup] at hm
    · intro m hm
      have h1 : (add_task s c0 tid url as cb).1 = some (get_next_seq_num s c0).1 := by
        simp [add_task, hdup]
      rw [h1] at hm
      have hm' : m = (get_next_seq_num s c0).1 := (Option.some.injEq _ _ ▸ hm).symm
      constructor
      · rw [hm']
        exact (get_next_seq_num_spec s c0).1
      · simp [add_task, hdup]

/-- Applying any single operation never decreases any chat's allocator. -/
theorem applyOp_counters_mono (s : DBState) (op : Op) (c : Int) :
    nextFor s c ≤ nextFor (applyOp s op).1 c := by
  cases op with
  | add c0 tid url as cb =>
      show nextFor s c ≤ nextFor (add_task s c0 tid url as cb).2 c
      cases hr : (add_task s c0 tid url as cb).1 with
      | none =>
          rw [(add_task_counter_spec s c0 tid url as cb).1 hr]
      | some m =>
          have hcnt := ((add_task_counter_spec s c0 tid url as cb).2 m hr).2
          rw [nextFor_congr _ _ hcnt c]
          by_cases hc : c = c0
          · subst hc
            rw [(get_next_seq_num_spec s c).2.1]
            exact Nat.le_succ _
          · rw [(get_next_seq_num_spec s c0).2.2.1 c hc]
  | removeBySeq c0 q =>
      have h := (remove_counters_eq s c0 q "").1
      exact le_of_eq (nextFor_congr _ _ h c).symm
  | removeById c0 tid =>
      have h := (remove_counters_eq s c0 0 tid).2
      exact le_of_eq (nextFor_congr _ _ h c).symm

/-- A successful add's reported event carries exactly the chat's `nextFor`
value at call time, and leaves the chat's allocator at that value plus one. -/
theorem applyOp_event_spec (s : DBState) (op : Op) (c : Int) (n : Nat)
    (h : (c, n) ∈ (applyOp s op).2) :
    n = nextFor s c ∧ nextFor (applyOp s op).1 c = n + 1 := by
  cases op with
  | removeBySeq c0 q => simp [applyOp] at h
  | removeById c0 tid => simp [applyOp] at h
  | add c0 tid url as cb =>
      have hev : (applyOp s (Op.add c0 tid url as cb)).2
          = (match (add_task s c0 tid url as cb).1 with
             | some m => [(c0, m)] | none => []) := rfl
      have hst : (applyOp s (Op.add c0 tid url as cb)).1
          = (add_task s c0 tid url as cb).2 := rfl
      rw [hev] at h
      rw [hst]
      cases hr : (add_task s c0 tid url as cb).1 with
      | none =>
          rw [hr] at h
          simp at h
      | some m =>
          rw [hr] at h
          simp only [List.mem_singleton, Prod.mk.injEq] at h
          obtain ⟨hc, hn⟩ := h
          subst hc
          obtain ⟨hm, hcnt⟩ := (add_task_counter_spec s c tid url as cb).2 m hr
          constructor
          · rw [hn, hm]
          · rw [nextFor_congr _ _ hcnt c, (get_next_seq_num_spec s c).2.1, hn, hm]

/-- Every operation reports either no event or exactly one. -/
theorem applyOp_events_shape (s : DBState) (op : Op) :
    (applyOp s op).2 = [] ∨ ∃ c0 n0, (applyOp s op).2 = [(c0, n0)] := by
  cases op with
  | removeBySeq c0 q => exact Or.inl rfl
  | removeById c0 tid => exact Or.inl rfl
  | add c0 tid url as cb =>
      have hev : (applyOp s (Op.add c0 tid url as cb)).2
          = (match (add_task s c0 tid url as cb).1 with
             | some m => [(c0, m)] | none => []) := rfl
      rw [hev]
      cases (add_task s c0 tid url as cb).1 with
      | none => exact Or.inl rfl
      | some m => exact Or.inr ⟨c0, m, rfl⟩

/-- Invariant fold: from any state, the events of chat `c` issued by a run are
strictly increasing and all at least the chat's starting `nextFor`. -/
theorem runOps_issued_spec (ops : List Op) : ∀ (s : DBState) (c : Int),
    ((((runOps s ops).2).filter (fun p => p.1 == c)).map (fun p => p.2)).Pairwise
        (fun a b => a < b) ∧
    ∀ n ∈ (((runOps s ops).2).filter (fun p => p.1 == c)).map (fun p => p.2),
      nextFor s c ≤ n := by
  induction ops with
  | nil =>
      intro s c
      simp [runOps]
  | cons op ops ih =>
      intro s c
      have hev : (runOps s (op :: ops)).2
          = (applyOp s op).2 ++ (runOps (applyOp s op).1 ops).2 := rfl
      rw [hev, List.filter_append, List.map_append]
      obtain ⟨ihp, ihb⟩ := ih (applyOp s op).1 c
      have hmono := applyOp_counters_mono s op c
      rcases applyOp_events_shape s op with hempty | ⟨c0, n0, hone⟩
      · rw [hempty]
        simp only [List.filter_nil, List.map_nil, List.nil_append]
        exact ⟨ihp, fun n hn => le_trans hmono (ihb n hn)⟩
      · rw [hone]
        by_cases hc : (c0 == c) = true
        · have hc' : c0 = c := beq_iff_eq.mp hc
          have hevt : (c, n0) ∈ (applyOp s op).2 := by
            rw [hone, hc']
            exact List.mem_singleton.mpr rfl
          obtain ⟨hn0, hnext⟩ := applyOp_event_spec s op c n0 hevt
          have hfil : List.filter (fun p => p.1 == c) [(c0, n0)] = [(c0, n0)] := by
            simp [List.filter, hc]
          rw [hfil]
          simp only [List.map_cons, List.map_nil, List.cons_append, List.nil_append]
          have hbig : ∀ m ∈ (((runOps (applyOp s op).1 ops).2).filter
              (fun p => p.1 == c)).map (fun p => p.2), n0 < m := by
            intro m hm
            have := ihb m hm
            rw [hnext] at this
            exact Nat.lt_of_succ_le this
          refine ⟨List.pairwise_cons.mpr ⟨hbig, ihp⟩, ?_⟩
          intro n hn
          rcases List.mem_cons.mp hn with hhd | htl
          · rw [hhd, hn0]
          · exact le_of_lt (hn0 ▸ hbig n htl)
        · have hfil : List.filter (fun p => p.1 == c) [(c0, n0)] = [] := by
            simp [List.filter, hc]
          rw [hfil]
          simp only [List.map_nil, List.nil_append]
          exact ⟨ihp, fun n hn => le_trans hmono (ihb n hn)⟩

/-- C1: for every chat and every finite sequence of add/remove operations run
from any starting state, the `seq_num` values returned by the successful adds
of that chat are strictly increasing in invocation order, hence never repeat —
even if every task is removed and re-added.  (The per-chat counter is lazily
initialized to 1, each allocation returns the current value and persists
current + 1, and no operation ever decrements or resets it; these facts are
the content of `get_next_seq_num_spec`, `applyOp_counters_mono` and
`applyOp_event_spec`, from which this theorem follows.) -/
theorem seq_nums_strictly_increasing (s : DBState) (ops : List Op) (c : Int) :
    (issuedSeqs s ops c).Pairwise (fun a b => a < b) ∧
    (issuedSeqs s ops c).Pairwise (fun a b => a ≠ b) := by
  have h := runOps_issued_spec ops s c
  exact ⟨h.1, h.1.imp Nat.ne_of_lt⟩

/-! ### Removal returns the record and leaves the rest untouched (C3) -/

/-- What `get_tasks` lists: exactly the views of the chat's stored rows. -/
theorem mem_get_tasks (s : DBState) (c : Int) (v : Task) :
    v ∈ get_tasks s c ↔ ∃ t ∈ s.tasks, (t.chat_id == c) = true ∧ v = row_to_task s t := by
  unfold get_tasks
  rw [List.mem_map]
  constructor
  · rintro ⟨t, ht, rfl⟩
    have ht' := (List.mem_insertionSort _).mp ht
    have hm := List.mem_filter.mp ht'
    exact ⟨t, hm.1, hm.2, rfl⟩
  · rintro ⟨t, ht, hc, rfl⟩
    exact ⟨t, (List.mem_insertionSort _).mpr (List.mem_filter.mpr ⟨ht, hc⟩), rfl⟩

/-- A task's view depends on the state only through the junction table. -/
theorem row_to_task_congr (s s' : DBState) (h : s'.task_assignees = s.task_assignees)
    (t : TaskRow) : row_to_task s' t = row_to_task s t := by
  unfold row_to_task
  rw [h]

/-- C3: on a hit, `remove_task_by_seq` / `remove_task_by_id` return the full
pre-deletion record (url, assignees, created_by, seq_num as stored, via
`row_to_task` of the found row), a subsequent `get_tasks` excludes the removed
task while every other pre-state task view is still listed unchanged, and the
counter table is untouched; on a miss they return `none` and change nothing. -/
theorem remove_returns_record_and_frame (s : DBState) (c : Int) (q : Nat) (tid : String) :
    (∀ r, s.tasks.find? (fun t => t.chat_id == c && t.seq_num == q) = some r →
      (remove_task_by_seq s c q).1 = some (row_to_task s r) ∧
      (remove_task_by_seq s c q).2.seq_counters = s.seq_counters ∧
      (∀ v ∈ get_tasks (remove_task_by_seq s c q).2 c, v.seq_num ≠ q) ∧
      (∀ v ∈ get_tasks s c, v.seq_num ≠ q → v ∈ get_tasks (remove_task_by_seq s c q).2 c)) ∧
    (s.tasks.find? (fun t => t.chat_id == c && t.seq_num == q) = none →
      remove_task_by_seq s c q = (none, s)) ∧
    (∀ r, s.tasks.find? (fun t => t.chat_id == c && t.task_id == tid) = some r →
      (remove_task_by_id s c tid).1 = some (row_to_task s r) ∧
      (remove_task_by_id s c tid).2.seq_counters = s.seq_counters ∧
      (∀ v ∈ get_tasks (remove_task_by_id s c tid).2 c, v.task_id ≠ tid) ∧
      (∀ v ∈ get_tasks s c, v.task_id ≠ tid → v ∈ get_tasks (remove_task_by_id s c tid).2 c)) ∧
    (s.tasks.find? (fun t => t.chat_id == c && t.task_id == tid) = none →
      remove_task_by_id s c tid = (none, s)) := by
  refine ⟨?_, ?_, ?_, ?_⟩
  · intro r hr
    simp only [remove_task_by_seq, hr]
    refine ⟨trivial, trivial, ?_, ?_⟩
    · intro v hv
      rw [mem_get_tasks] at hv
      obtain ⟨t, ht, hchat, rfl⟩ := hv
      have hpred := (List.mem_filter.mp ht).2
      simp only [hchat, Bool.not_eq_true', Bool.and_eq_false_iff] at hpred
      rcases hpred with hfalse | hseq
      · exact absurd hfalse (by simp)
      · show (row_to_task _ t).seq_num ≠ q
        have : t.seq_num ≠ q := by
          intro h
          rw [h] at hseq
          simp at hseq
        simpa [row_to_task] using this
    · intro v hv hvq
      rw [mem_get_tasks] at hv
      obtain ⟨t, ht, hchat, rfl⟩ := hv
      have hseqne : t.seq_num ≠ q := by
        simpa [row_to_task] using hvq
      rw [mem_get_tasks]
      refine ⟨t, ?_, hchat, ?_⟩
      · refine List.mem_filter.mpr ⟨ht, ?_⟩
        simp [beq_eq_false_iff_ne.mpr hseqne]
      · exact (row_to_task_congr _ s rfl t).symm
  · intro h
    simp only [remove_task_by_seq, h]
  · intro r hr
    simp only [remove_task_by_id, hr]
    refine ⟨trivial, trivial, ?_, ?_⟩
    · intro v hv
      rw [mem_get_tasks] at hv
      obtain ⟨t, ht, hchat, rfl⟩ := hv
      have hpred := (List.mem_filter.mp ht).2
      simp only [hchat, Bool.not_eq_true', Bool.and_eq_false_iff] at hpred
      rcases hpred with hfalse | hid
      · exact absurd hfalse (by simp)
      · show (row_to_task _ t).task_id ≠ tid
        have : t.task_id ≠ tid := by
          intro h
          rw [h] at hid
          simp at hid
        simpa [row_to_task] using this
    · intro v hv hvq
      rw [mem_get_tasks] at hv
      obtain ⟨t, ht, hchat, rfl⟩ := hv
      have hidne : t.task_id ≠ tid := by
        simpa [row_to_task] using hvq
      rw [mem_get_tasks]
      refine ⟨t, ?_, hchat, ?_⟩
      · refine List.mem_filter.mpr ⟨ht, ?_⟩
        simp [beq_eq_false_iff_ne.mpr hidne]
      · exact (row_to_task_congr _ s rfl t).symm
  · intro h
    simp only [remove_task_by_id, h]

/-- Witness for C3 at a concrete two-task state: both hit branches and both
miss branches of the theorem are exercised. -/
theorem remove_frame_witness :
    (remove_task_by_seq removeWitnessState 1 1).1
      = some (row_to_task removeWitnessState removeWitnessRowA) ∧
    (remove_task_by_id removeWitnessState 1 "B").1
      = some (row_to_task removeWitnessState removeWitnessRowB) ∧
    remove_task_by_seq removeWitnessState 1 99 = (none, removeWitnessState) ∧
    remove_task_by_id removeWitnessState 1 "missing" = (none, removeWitnessState) :=
  ⟨((remove_returns_record_and_frame removeWitnessState 1 1 "B").1
      removeWitnessRowA (by decide)).1,
   ((remove_returns_record_and_frame removeWitnessState 1 1 "B").2.2.1
      removeWitnessRowB (by decide)).1,
   (remove_returns_record_and_frame removeWitnessState 1 99 "missing").2.1 (by decide),
   (remove_returns_record_and_frame removeWitnessState 1 99 "missing").2.2.2 (by decide)⟩

/-! ### The BINARY-collation order is a linear order -/

/-- `charListLe` is total. -/
theorem charListLe_total : ∀ as bs, charListLe as bs = true ∨ charListLe bs as = true := by
  intro as
  induction as with
  | nil => intro bs; exact Or.inl rfl
  | cons a as ih =>
      intro bs
      cases bs with
      | nil => exact Or.inr rfl
      | cons b bs =>
          rcases lt_trichotomy a b with hab | hab | hab
          · left
            simp [charListLe, hab]
          · subst hab
            rcases ih bs with h | h
            · left
              simp [charListLe, lt_irrefl, h]
            · right
              simp [charListLe, lt_irrefl, h]
          · right
            simp [charListLe, hab]

/-- `charListLe` is transitive. -/
theorem charListLe_trans : ∀ as bs cs, charListLe as bs = true → charListLe bs cs = true →
    charListLe as cs = true := by
  intro as
  induction as with
  | nil => intro bs cs h1 h2; rfl
  | cons a as ih =>
      intro bs cs h1 h2
      cases bs with
      | nil => simp [charListLe] at h1
      | cons b bs =>
          cases cs with
          | nil => simp [charListLe] at h2
          | cons c cs =>
              simp only [charListLe] at h1 h2 ⊢
              rcases lt_trichotomy a b with hab | hab | hab
              · rcases lt_trichotomy b c with hbc | hbc | hbc
                · simp [lt_trans hab hbc]
                · subst hbc
                  simp [hab]
                · rw [if_neg (lt_asymm hbc), if_neg (ne_of_gt hbc)] at h2
                  cases h2
              · subst hab
                rcases lt_trichotomy a c with hac | hac | hac
                · simp [hac]
                · subst hac
                  rw [if_neg (lt_irrefl a), if_pos rfl] at h1 h2 ⊢
                  exact ih bs cs h1 h2
                · rw [if_neg (lt_asymm hac), if_neg (ne_of_gt hac)] at h2
                  cases h2
              · rw [if_neg (lt_asymm hab), if_neg (ne_of_gt hab)] at h1
                cases h1

/-- `charListLe` is antisymmetric. -/
theorem charListLe_antisymm : ∀ as bs, charListLe as bs = true → charListLe bs as = true →
    as = bs := by
  intro as
  induction as with
  | nil =>
      intro bs h1 h2
      cases bs with
      | nil => rfl
      | cons b bs => simp [charListLe] at h2
  | cons a as ih =>
      intro bs h1 h2
      cases bs with
      | nil => simp [charListLe] at h1
      | cons b bs =>
          simp only [charListLe] at h1 h2
          rcases lt_trichotomy a b with hab | hab | hab
          · rw [if_neg (lt_asymm hab), if_neg (ne_of_gt hab)] at h2
            cases h2
          · subst hab
            rw [if_neg (lt_irrefl a), if_pos rfl] at h1 h2
            rw [ih bs h1 h2]
          · rw [if_neg (lt_asymm hab), if_neg (ne_of_gt hab)] at h1
            cases h1

instance strLe_isTotal : IsTotal String (fun a b => strLe a b = true) :=
  ⟨fun a b => charListLe_total a.data b.data⟩

instance strLe_isTrans : IsTrans String (fun a b => strLe a b = true) :=
  ⟨fun a b c h1 h2 => charListLe_trans a.data b.data c.data h1 h2⟩

instance strLe_isAntisymm : IsAntisymm String (fun a b => strLe a b = true) :=
  ⟨fun a b h1 h2 => by
    cases a with
    | mk da =>
        cases b with
        | mk db =>
            have : da = db := charListLe_antisymm da db h1 h2
            rw [this]⟩

/-! ### Assignee-set normalization (C4, C10)

The insert loop of `_set_task_assignees` stores, for the task, exactly the
first occurrences of the nonempty entries of its argument; reads return them
sorted.  `dedupNonempty` mirrors that loop on plain string lists. -/

/-- The insert loop of `_set_task_assignees`, restricted to the rows of the
task being written, acts exactly like `dedupNonempty`ing its argument. -/
theorem set_task_assignees_filter_aux (idv : Nat) (A : List String) :
    ∀ (acc : List (Nat × String)) (seen : List String),
      acc.filter (fun p => p.1 == idv) = seen.map (fun a => (idv, a)) →
      (A.foldl (fun acc a =>
          if a = "" then acc
          else if acc.any (fun p => p.1 == idv && p.2 == a) then acc
          else acc ++ [(idv, a)]) acc).filter (fun p => p.1 == idv)
        = (dedupNonempty seen A).map (fun a => (idv, a)) := by
  induction A with
  | nil =>
      intro acc seen h
      simpa [dedupNonempty] using h
  | cons a rest ih =>
      intro acc seen h
      have hmemiff : (acc.any (fun p => p.1 == idv && p.2 == a) = true) ↔ a ∈ seen := by
        rw [List.any_eq_true]
        constructor
        · rintro ⟨p, hp, hpa⟩
          simp only [Bool.and_eq_true, beq_iff_eq] at hpa
          have hpf : p ∈ acc.filter (fun p => p.1 == idv) :=
            List.mem_filter.mpr ⟨hp, by simp [hpa.1]⟩
          rw [h] at hpf
          obtain ⟨b, hb, hba⟩ := List.mem_map.mp hpf
          have hb2 : b = a := by
            have := hpa.2
            rw [← hba] at this
            exact this
          rw [← hb2]
          exact hb
        · intro hs
          refine ⟨(idv, a), ?_, by simp⟩
          have hpf : (idv, a) ∈ acc.filter (fun p => p.1 == idv) := by
            rw [h]
            exact List.mem_map.mpr ⟨a, hs, rfl⟩
          exact (List.mem_filter.mp hpf).1
      by_cases ha : a = ""
      · rw [List.foldl_cons, if_pos ha]
        simp only [dedupNonempty, if_pos ha]
        exact ih acc seen h
      · by_cases hs : a ∈ seen
        · rw [List.foldl_cons, if_neg ha, if_pos (hmemiff.mpr hs)]
          simp only [dedupNonempty, if_neg ha, if_pos hs]
          exact ih acc seen h
        · have hnot : ¬(acc.any (fun p => p.1 == idv && p.2 == a) = true) := fun hc =>
            hs (hmemiff.mp hc)
          rw [List.foldl_cons, if_neg ha, if_neg hnot]
          simp only [dedupNonempty, if_neg ha, if_neg hs]
          refine ih (acc ++ [(idv, a)]) (seen ++ [a]) ?_
          rw [List.filter_append, h, List.map_append]
          congr 1
          simp [List.filter]

/-- The junction rows of the task just written are its `dedupNonempty`ed
argument. -/
theorem set_task_assignees_filter (J : List (Nat × String)) (idv : Nat) (A : List String) :
    (set_task_assignees J idv A).filter (fun p => p.1 == idv)
      = (dedupNonempty [] A).map (fun a => (idv, a)) := by
  unfold set_task_assignees
  refine set_task_assignees_filter_aux idv A _ [] ?_
  rw [List.map_nil, List.filter_eq_nil_iff]
  intro p hp
  have := (List.mem_filter.mp hp).2
  simp only [Bool.not_eq_true'] at this
  simp [this]

/-- Reading back the task just written yields its normalized assignee list. -/
theorem get_set_task_assignees (J : List (Nat × String)) (idv : Nat) (A : List String) :
    get_task_assignees (set_task_assignees J idv A) idv
      = List.insertionSort (fun a b => strLe a b = true) (dedupNonempty [] A) := by
  unfold get_task_assignees
  rw [set_task_assignees_filter, List.map_map]
  congr 1
  simp [Function.comp]

/-- Membership in a `dedupNonempty` run. -/
theorem mem_dedupNonempty (A : List String) : ∀ (seen : List String) (x : String),
    x ∈ dedupNonempty seen A ↔ x ∈ seen ∨ (x ∈ A ∧ x ≠ "") := by
  induction A with
  | nil =>
      intro seen x
      simp [dedupNonempty]
  | cons a rest ih =>
      intro seen x
      by_cases ha : a = ""
      · simp only [dedupNonempty, if_pos ha, ih, List.mem_cons]
        subst ha
        constructor
        · rintro (h | ⟨h1, h2⟩)
          · exact Or.inl h
          · exact Or.inr ⟨Or.inr h1, h2⟩
        · rintro (h | ⟨h1 | h1, h2⟩)
          · exact Or.inl h
          · exact absurd h1 h2
          · exact Or.inr ⟨h1, h2⟩
      · by_cases hs : a ∈ seen
        · simp only [dedupNonempty, if_neg ha, if_pos hs, ih, List.mem_cons]
          constructor
          · rintro (h | ⟨h1, h2⟩)
            · exact Or.inl h
            · exact Or.inr ⟨Or.inr h1, h2⟩
          · rintro (h | ⟨h1 | h1, h2⟩)
            · exact Or.inl h
            · exact Or.inl (h1 ▸ hs)
            · exact Or.inr ⟨h1, h2⟩
        · simp only [dedupNonempty, if_neg ha, if_neg hs, ih, List.mem_append,
            List.mem_singleton, List.mem_cons, List.not_mem_nil, or_false]
          constructor
          · rintro ((h | h) | ⟨h1, h2⟩)
            · exact Or.inl h
            · exact Or.inr ⟨Or.inl h, by rw [h]; exact ha⟩
            · exact Or.inr ⟨Or.inr h1, h2⟩
          · rintro (h | ⟨h1 | h1, h2⟩)
            · exact Or.inl (Or.inl h)
            · exact Or.inl (Or.inr h1)
            · exact Or.inr ⟨h1, h2⟩

/-- A `dedupNonempty` run has no duplicates. -/
theorem nodup_dedupNonempty (A : List String) : ∀ (seen : List String),
    seen.Nodup → (dedupNonempty seen A).Nodup := by
  induction A with
  | nil =>
      intro seen h
      simpa [dedupNonempty] using h
  | cons a rest ih =>
      intro seen h
      by_cases ha : a = ""
      · simp only [dedupNonempty, if_pos ha]
        exact ih seen h
      · by_cases hs : a ∈ seen
        · simp only [dedupNonempty, if_neg ha, if_pos hs]
          exact ih seen h
        · simp only [dedupNonempty, if_neg ha, if_neg hs]
          refine ih (seen ++ [a]) ?_
          simp [List.nodup_append, h, hs]

/-- C10: at the registry's interface the stored assignee set is a normalized
form of the input list: after `_set_task_assignees`, reading the task's
assignees back with `_get_task_assignees` yields a sorted, duplicate-free list
that contains exactly the nonempty entries of the input and does not depend on
the order in which they were supplied.  Every read path (`get_tasks`,
`_row_to_task` in removal/update results) goes through `_get_task_assignees`. -/
theorem assignee_normalization (J : List (Nat × String)) (idv : Nat) (A : List String) :
    List.Sorted (fun a b => strLe a b = true)
      (get_task_assignees (set_task_assignees J idv A) idv) ∧
    (get_task_assignees (set_task_assignees J idv A) idv).Nodup ∧
    (∀ x, x ∈ get_task_assignees (set_task_assignees J idv A) idv ↔ (x ∈ A ∧ x ≠ "")) ∧
    (∀ (J' : List (Nat × String)) (A' : List String), A.Perm A' →
      get_task_assignees (set_task_assignees J' idv A') idv
        = get_task_assignees (set_task_assignees J idv A) idv) := by
  simp only [get_set_task_assignees]
  refine ⟨List.sorted_insertionSort _ _, ?_, ?_, ?_⟩
  · exact ((List.perm_insertionSort _ _).nodup_iff).mpr
      (nodup_dedupNonempty A [] List.nodup_nil)
  · intro x
    rw [List.mem_insertionSort, mem_dedupNonempty]
    simp
  · intro J' A' hp
    refine List.eq_of_perm_of_sorted ?_ (List.sorted_insertionSort _ _)
      (List.sorted_insertionSort _ _)
    refine ((List.perm_insertionSort _ _).trans ?_).trans
      (List.perm_insertionSort _ _).symm
    rw [List.perm_ext_iff_of_nodup (nodup_dedupNonempty A' [] List.nodup_nil)
      (nodup_dedupNonempty A [] List.nodup_nil)]
    intro x
    rw [mem_dedupNonempty, mem_dedupNonempty]
    simp only [List.not_mem_nil, false_or]
    exact and_congr_left (fun _ => hp.symm.mem_iff)

/-- Witness for C10's permutation hypothesis at a concrete input. -/
theorem assignee_normalization_witness :
    get_task_assignees (set_task_assignees [(7, "@z")] 3 ["@b", "", "@a", "@b"]) 3
      = get_task_assignees (set_task_assignees [] 3 ["@a", "@b", "", "@b"]) 3 :=
  (assignee_normalization [] 3 ["@a", "@b", "", "@b"]).2.2.2 [(7, "@z")]
    ["@b", "", "@a", "@b"] (by decide)

/-! ### Updating assignees replaces the set wholesale (C4) -/

/-- The legacy-column UPDATE does not change the key columns, so the re-SELECT
of `update_task_assignees_by_seq` finds exactly the updated row. -/
theorem update_seq_reselect (l : List TaskRow) (c : Int) (q : Nat) (d : String) :
    (l.map (fun t => if t.chat_id == c && t.seq_num == q then
        { t with assigned_to := d } else t)).find?
        (fun t => t.chat_id == c && t.seq_num == q)
      = (l.find? (fun t => t.chat_id == c && t.seq_num == q)).map
          (fun t => if t.chat_id == c && t.seq_num == q then
            { t with assigned_to := d } else t) := by
  have hcomp : ((fun t : TaskRow => t.chat_id == c && t.seq_num == q) ∘
      (fun t => if t.chat_id == c && t.seq_num == q then { t with assigned_to := d } else t))
      = fun t : TaskRow => t.chat_id == c && t.seq_num == q := by
    funext t
    by_cases h : (t.chat_id == c && t.seq_num == q) = true
    · simp [Function.comp, h]
    · simp [Function.comp, h]
  rw [List.find?_map, hcomp]

/-- What a hit of `update_task_assignees_by_seq` returns and stores: the
updated record whose junction rows are exactly the normalized new assignee
list, with the key columns untouched. -/
theorem update_by_seq_found (s : DBState) (c : Int) (q : Nat) (A : List String) (r : TaskRow)
    (hr : s.tasks.find? (fun t => t.chat_id == c && t.seq_num == q) = some r) :
    (update_task_assignees_by_seq s c q A).1
        = some (row_to_task (update_task_assignees_by_seq s c q A).2
            { r with assigned_to := A.headD "unassigned" }) ∧
    (row_to_task (update_task_assignees_by_seq s c q A).2
        { r with assigned_to := A.headD "unassigned" }).assignees
      = List.insertionSort (fun a b => strLe a b = true) (dedupNonempty [] A) ∧
    (update_task_assignees_by_seq s c q A).2.tasks.find?
        (fun t => t.chat_id == c && t.seq_num == q)
      = some { r with assigned_to := A.headD "unassigned" } := by
  have hpr : (r.chat_id == c && r.seq_num == q) = true :=
    @List.find?_some _ (fun t : TaskRow => t.chat_id == c && t.seq_num == q) r s.tasks hr
  have hfind : (s.tasks.map (fun t => if t.chat_id == c && t.seq_num == q then
      { t with assigned_to := A.headD "unassigned" } else t)).find?
      (fun t => t.chat_id == c && t.seq_num == q)
      = some { r with assigned_to := A.headD "unassigned" } := by
    rw [update_seq_reselect, hr, Option.map_some', if_pos hpr]
  simp only [update_task_assignees_by_seq, hr, hfind, Option.map_some']
  refine ⟨trivial, ?_, trivial⟩
  show get_task_assignees (set_task_assignees s.task_assignees r.id A) r.id
    = List.insertionSort (fun a b => strLe a b = true) (dedupNonempty [] A)
  exact get_set_task_assignees s.task_assignees r.id A

/-- C4: for an existing task, `update_task_assignees_by_seq` replaces the
assignee set wholesale rather than merging: updating with ["@a","@b"] and then
with ["@c"] leaves exactly ["@c"] stored; updating with [] leaves the empty
("unassigned") assignee set; each hit returns the updated record; a miss
returns the NotFound sentinel `None` and changes nothing. -/
theorem update_assignees_replaces (s : DBState) (c : Int) (q : Nat) :
    ((s.tasks.find? (fun t => t.chat_id == c && t.seq_num == q)).isSome = true →
      (∀ v, (update_task_assignees_by_seq
            (update_task_assignees_by_seq s c q ["@a", "@b"]).2 c q ["@c"]).1 = some v →
          v.assignees = ["@c"]) ∧
      (∀ v, (update_task_assignees_by_seq s c q ["@a", "@b"]).1 = some v →
          v.assignees = ["@a", "@b"]) ∧
      (∀ v, (update_task_assignees_by_seq s c q []).1 = some v → v.assignees = [])) ∧
    (s.tasks.find? (fun t => t.chat_id == c && t.seq_num == q) = none →
      ∀ A, update_task_assignees_by_seq s c q A = (none, s)) := by
  constructor
  · intro hsome
    obtain ⟨r, hr⟩ := Option.isSome_iff_exists.mp hsome
    refine ⟨?_, ?_, ?_⟩
    · obtain ⟨h1, h2, h3⟩ := update_by_seq_found s c q ["@a", "@b"] r hr
      obtain ⟨g1, g2, g3⟩ := update_by_seq_found _ c q ["@c"] _ h3
      intro v hv
      rw [g1, Option.some.injEq] at hv
      rw [← hv, g2]
      decide
    · obtain ⟨h1, h2, h3⟩ := update_by_seq_found s c q ["@a", "@b"] r hr
      intro v hv
      rw [h1, Option.some.injEq] at hv
      rw [← hv, h2]
      decide
    · obtain ⟨h1, h2, h3⟩ := update_by_seq_found s c q [] r hr
      intro v hv
      rw [h1, Option.some.injEq] at hv
      rw [← hv, h2]
      decide
  · intro hnone A
    simp only [update_task_assignees_by_seq, hnone]

/-- Witness for C4 at a concrete one-task state: the hit branch at seq 1 and
the miss branch at seq 99. -/
theorem update_assignees_replaces_witness :
    (∀ v, (update_task_assignees_by_seq
          (update_task_assignees_by_seq updateWitnessState 1 1 ["@a", "@b"]).2 1 1 ["@c"]).1
        = some v → v.assignees = ["@c"]) ∧
    update_task_assignees_by_seq updateWitnessState 1 99 ["@z"]
      = (none, updateWitnessState) :=
  ⟨((update_assignees_replaces updateWitnessState 1 1).1 (by decide)).1,
   (update_assignees_replaces updateWitnessState 1 99).2 (by decide) ["@z"]⟩

/-! ### The two update entry points agree (C7) -/

/-- `find?` returns the unique element satisfying the predicate. -/
theorem find?_eq_some_of_unique {α} (p : α → Bool) (l : List α) (r : α) (hr : r ∈ l)
    (hp : p r = true) (huniq : ∀ x ∈ l, p x = true → x = r) : l.find? p = some r := by
  induction l with
  | nil => cases hr
  | cons x l ih =>
      by_cases hx : p x = true
      · rw [List.find?_cons_of_pos _ hx, huniq x (List.mem_cons_self x l) hx]
      · rw [List.find?_cons_of_neg _ hx]
        rcases List.mem_cons.mp hr with h | h
        · subst h
          exact absurd hp hx
        · exact ih h (fun y hy hpy => huniq y (List.mem_cons_of_mem x hy) hpy)

/-- C7: for a live task `r` of chat `c` in a well-formed state, updating the
assignees by its sequence number and updating them by its task id produce the
same returned record and the same resulting state — the two entry points have
the same semantics. -/
theorem update_by_seq_eq_update_by_id (s : DBState) (c : Int) (A : List String) (r : TaskRow)
    (hwf : WfTasks s.tasks) (hr : r ∈ s.tasks) (hc : r.chat_id = c) :
    update_task_assignees_by_seq s c r.seq_num A
      = update_task_assignees_by_id s c r.task_id A := by
  have hsymm : Symmetric (fun a b : TaskRow => a.id ≠ b.id ∧
      (a.chat_id = b.chat_id → a.task_id ≠ b.task_id ∧ a.seq_num ≠ b.seq_num)) := by
    intro a b h
    refine ⟨Ne.symm h.1, fun hcb => ?_⟩
    obtain ⟨h1, h2⟩ := h.2 hcb.symm
    exact ⟨Ne.symm h1, Ne.symm h2⟩
  have uniq_seq : ∀ x ∈ s.tasks, (x.chat_id == c && x.seq_num == r.seq_num) = true → x = r := by
    intro x hx hpx
    by_contra hne
    obtain ⟨hxc, hxs⟩ := Bool.and_eq_true_iff.mp hpx
    have hrel := hwf.forall hsymm hx hr hne
    exact (hrel.2 (by rw [beq_iff_eq.mp hxc, hc])).2 (beq_iff_eq.mp hxs)
  have uniq_id : ∀ x ∈ s.tasks, (x.chat_id == c && x.task_id == r.task_id) = true → x = r := by
    intro x hx hpx
    by_contra hne
    obtain ⟨hxc, hxs⟩ := Bool.and_eq_true_iff.mp hpx
    have hrel := hwf.forall hsymm hx hr hne
    exact (hrel.2 (by rw [beq_iff_eq.mp hxc, hc])).1 (beq_iff_eq.mp hxs)
  have hfs : s.tasks.find? (fun t => t.chat_id == c && t.seq_num == r.seq_num) = some r :=
    find?_eq_some_of_unique _ _ r hr (by simp [hc]) uniq_seq
  have hfi : s.tasks.find? (fun t => t.chat_id == c && t.task_id == r.task_id) = some r :=
    find?_eq_some_of_unique _ _ r hr (by simp [hc]) uniq_id
  simp only [update_task_assignees_by_seq, update_task_assignees_by_id, hfs, hfi]
  have hmap : s.tasks.map (fun t => if t.chat_id == c && t.seq_num == r.seq_num then
        { t with assigned_to := A.headD "unassigned" } else t)
      = s.tasks.map (fun t => if t.chat_id == c && t.task_id == r.task_id then
        { t with assigned_to := A.headD "unassigned" } else t) := by
    refine List.map_congr_left ?_
    intro t ht
    by_cases hp1 : (t.chat_id == c && t.seq_num == r.seq_num) = true
    · have ht' : t = r := uniq_seq t ht hp1
      subst ht'
      rw [if_pos hp1, if_pos (by simp [hc])]
    · by_cases hp2 : (t.chat_id == c && t.task_id == r.task_id) = true
      · have ht' : t = r := uniq_id t ht hp2
        subst ht'
        exact absurd (by simp [hc]) hp1
      · rw [if_neg hp1, if_neg hp2]
  rw [hmap]
  have hcomp_seq : ((fun t : TaskRow => t.chat_id == c && t.seq_num == r.seq_num) ∘
      (fun t => if t.chat_id == c && t.task_id == r.task_id then
        { t with assigned_to := A.headD "unassigned" } else t))
      = fun t : TaskRow => t.chat_id == c && t.seq_num == r.seq_num := by
    funext t
    by_cases h : (t.chat_id == c && t.task_id == r.task_id) = true
    · simp [Function.comp, h]
    · simp [Function.comp, h]
  have hcomp_id : ((fun t : TaskRow => t.chat_id == c && t.task_id == r.task_id) ∘
      (fun t => if t.chat_id == c && t.task_id == r.task_id then
        { t with assigned_to := A.headD "unassigned" } else t))
      = fun t : TaskRow => t.chat_id == c && t.task_id == r.task_id := by
    funext t
    by_cases h : (t.chat_id == c && t.task_id == r.task_id) = true
    · simp [Function.comp, h]
    · simp [Function.comp, h]
  have h1 : (s.tasks.map (fun t => if t.chat_id == c && t.task_id == r.task_id then
        { t with assigned_to := A.headD "unassigned" } else t)).find?
        (fun t => t.chat_id == c && t.seq_num == r.seq_num)
      = some (if r.chat_id == c && r.task_id == r.task_id then
        { r with assigned_to := A.headD "unassigned" } else r) := by
    rw [List.find?_map, hcomp_seq, hfs, Option.map_some']
  have h2 : (s.tasks.map (fun t => if t.chat_id == c && t.task_id == r.task_id then
        { t with assigned_to := A.headD "unassigned" } else t)).find?
        (fun t => t.chat_id == c && t.task_id == r.task_id)
      = some (if r.chat_id == c && r.task_id == r.task_id then
        { r with assigned_to := A.headD "unassigned" } else r) := by
    rw [List.find?_map, hcomp_id, hfi, Option.map_some']
  rw [h1, h2]

/-- Witness for C7 at a concrete well-formed state. -/
theorem update_by_seq_eq_update_by_id_witness :
    update_task_assignees_by_seq equivWitnessState 1 1 ["@y"]
      = update_task_assignees_by_id equivWitnessState 1 "T" ["@y"] :=
  update_by_seq_eq_update_by_id equivWitnessState 1 ["@y"] equivWitnessRow
    (by decide) (by decide) (by decide)

/-! ### The legacy-assignee migration runs exactly once (C9) -/

/-- The UNIQUE check of the backfill loop is a membership test on the junction
rows. -/
theorem pair_any_mem (acc : List (Nat × String)) (idv : Nat) (a : String) :
    (acc.any (fun p => p.1 == idv && p.2 == a) = true) ↔ (idv, a) ∈ acc := by
  rw [List.any_eq_true]
  constructor
  · rintro ⟨⟨x, y⟩, hp, hpa⟩
    obtain ⟨h1, h2⟩ := Bool.and_eq_true_iff.mp hpa
    have hx : x = idv := beq_iff_eq.mp h1
    have hy : y = a := beq_iff_eq.mp h2
    rw [← hx, ← hy]
    exact hp
  · intro hm
    exact ⟨(idv, a), hm, by simp⟩

/-- Membership in the backfill loop's result. -/
theorem mem_backfill_foldl (tasks : List TaskRow) :
    ∀ (acc : List (Nat × String)) (p : Nat × String),
    (p ∈ tasks.foldl (fun acc t =>
        if acc.any (fun q => q.1 == t.id && q.2 == t.assigned_to) then acc
        else acc ++ [(t.id, t.assigned_to)]) acc
      ↔ p ∈ acc ∨ ∃ t ∈ tasks, t.id = p.1 ∧ t.assigned_to = p.2) := by
  induction tasks with
  | nil =>
      intro acc p
      simp
  | cons t rest ih =>
      intro acc p
      rw [List.foldl_cons]
      by_cases hd : (acc.any (fun q => q.1 == t.id && q.2 == t.assigned_to)) = true
      · rw [if_pos hd, ih]
        have hmem : (t.id, t.assigned_to) ∈ acc := (pair_any_mem acc t.id t.assigned_to).mp hd
        constructor
        · rintro (h | ⟨u, hu, h1, h2⟩)
          · exact Or.inl h
          · exact Or.inr ⟨u, List.mem_cons_of_mem t hu, h1, h2⟩
        · rintro (h | ⟨u, hu, h1, h2⟩)
          · exact Or.inl h
          · rcases List.mem_cons.mp hu with heq | hu'
            · subst heq
              have hp : p = (u.id, u.assigned_to) := by
                obtain ⟨p1, p2⟩ := p
                cases h1
                cases h2
                rfl
              rw [hp]
              exact Or.inl hmem
            · exact Or.inr ⟨u, hu', h1, h2⟩
      · rw [if_neg hd, ih]
        constructor
        · rintro (h | ⟨u, hu, h1, h2⟩)
          · rcases List.mem_append.mp h with h' | h'
            · exact Or.inl h'
            · have hp : p = (t.id, t.assigned_to) := List.mem_singleton.mp h'
              exact Or.inr ⟨t, List.mem_cons_self t rest, by rw [hp], by rw [hp]⟩
          · exact Or.inr ⟨u, List.mem_cons_of_mem t hu, h1, h2⟩
        · rintro (h | ⟨u, hu, h1, h2⟩)
          · exact Or.inl (List.mem_append.mpr (Or.inl h))
          · rcases List.mem_cons.mp hu with heq | hu'
            · subst heq
              have hp : p = (u.id, u.assigned_to) := by
                obtain ⟨p1, p2⟩ := p
                cases h1
                cases h2
                rfl
              rw [hp]
              exact Or.inl (List.mem_append.mpr (Or.inr (List.mem_singleton.mpr rfl)))
            · exact Or.inr ⟨u, hu', h1, h2⟩

/-- C9: the single-assignee-to-multi-assignee migration backfills exactly once
and is idempotent: with a non-empty junction table it changes nothing; with an
empty junction table it leaves every other table alone and fills the junction
with exactly the `(id, assigned_to)` pairs of the tasks whose legacy value is
neither "unassigned" nor ""; and running it again (any number of times) leaves
the state unchanged. -/
theorem migrate_backfills_once (s : DBState) :
    (s.task_assignees ≠ [] → migrate_assignees s = s) ∧
    (s.task_assignees = [] →
      (migrate_assignees s).tasks = s.tasks ∧
      (migrate_assignees s).seq_counters = s.seq_counters ∧
      (migrate_assignees s).reminders = s.reminders ∧
      (migrate_assignees s).next_task_id = s.next_task_id ∧
      (∀ idv a, ((idv, a) ∈ (migrate_assignees s).task_assignees ↔
        ∃ t ∈ s.tasks, t.id = idv ∧ t.assigned_to = a ∧ a ≠ "unassigned" ∧ a ≠ ""))) ∧
    migrate_assignees (migrate_assignees s) = migrate_assignees s := by
  have hne : ∀ (u : DBState), u.task_assignees ≠ [] → migrate_assignees u = u := by
    intro u hu
    unfold migrate_assignees
    rw [if_pos]
    exact List.length_pos.mpr hu
  have hempty : ∀ (u : DBState), u.task_assignees = [] →
      migrate_assignees u = { u with task_assignees := backfill_legacy u.tasks [] } := by
    intro u hu
    unfold migrate_assignees
    rw [hu]
    simp
  refine ⟨hne s, ?_, ?_⟩
  · intro h0
    rw [hempty s h0]
    refine ⟨rfl, rfl, rfl, rfl, ?_⟩
    intro idv a
    show (idv, a) ∈ backfill_legacy s.tasks [] ↔ _
    unfold backfill_legacy
    rw [mem_backfill_foldl]
    simp only [List.not_mem_nil, false_or]
    constructor
    · rintro ⟨t, ht, h1, h2⟩
      have hf := List.mem_filter.mp ht
      obtain ⟨hfa, hfb⟩ := Bool.and_eq_true_iff.mp hf.2
      refine ⟨t, hf.1, h1, h2, ?_, ?_⟩
      · rw [← h2]
        simpa using hfa
      · rw [← h2]
        simpa using hfb
    · rintro ⟨t, ht, h1, h2, h3, h4⟩
      refine ⟨t, ?_, h1, h2⟩
      refine List.mem_filter.mpr ⟨ht, ?_⟩
      rw [h2]
      simp [h3, h4]
  · by_cases h0 : s.task_assignees = []
    · by_cases hm : (migrate_assignees s).task_assignees = []
      · rw [hempty _ hm]
        have htasks : (migrate_assignees s).tasks = s.tasks := by
          rw [hempty s h0]
        have hta : backfill_legacy (migrate_assignees s).tasks []
            = (migrate_assignees s).task_assignees := by
          rw [htasks, hempty s h0]
        rw [hta]
      · exact hne _ hm
    · rw [hne s h0]
      exact hne s h0

/-- Witness for C9 at concrete states: the backfill branch, idempotence, and
the no-op branch. -/
theorem migrate_backfills_once_witness :
    ((1, "@x") ∈ (migrate_assignees migrateWitnessState).task_assignees ↔
      ∃ t ∈ migrateWitnessState.tasks,
        t.id = 1 ∧ t.assigned_to = "@x" ∧ "@x" ≠ "unassigned" ∧ "@x" ≠ "") ∧
    migrate_assignees (migrate_assignees migrateWitnessState)
      = migrate_assignees migrateWitnessState ∧
    migrate_assignees migratedWitnessState = migratedWitnessState :=
  ⟨((migrate_backfills_once migrateWitnessState).2.1 (by decide)).2.2.2.2 1 "@x",
   (migrate_backfills_once migrateWitnessState).2.2,
   (migrate_backfills_once migratedWitnessState).1 (by decide)⟩

end WorkQueue
